import Mathlib

/-!
Verification development for the tegrity repository (NVIDIA Tegra image
building tool). The definitions below are a shallow embedding of the parts of
the source relevant to the sandboxed rootfs execution core (`tegrity/qemu.py`),
the provisioning helpers (`tegrity/firstboot.py`, `tegrity/service.py`) and the
image sizing computation (`tegrity/image.py`). Paths are modeled as `String`
with the POSIX semantics of `os.path.join` / `os.path.basename`; the host
filesystem is modeled as an association list from paths to file contents, and
external `mount` / `umount` / `rm` effects are recorded as an operation trace
with exit codes supplied by oracles (one exit code per shell-out), exactly as
the code observes them through `subprocess.CompletedProcess`.
-/

set_option maxHeartbeats 1000000

namespace Tegrity

/-! ## POSIX path helpers (`os.path.join`, `os.path.basename`) -/

/-- True when the path begins with a slash (`b.startswith('/')` in
`posixpath.join`). -/
def isAbs (p : String) : Bool :=
  match p.data with
  | [] => false
  | c :: _ => decide (c = '/')

/-- True when the path ends with a slash (`path.endswith('/')` in
`posixpath.join`). -/
def endsSlash (p : String) : Bool :=
  match p.data.getLast? with
  | some c => decide (c = '/')
  | none => false

/-- Models the two-argument `os.path.join(a, b)` with POSIX semantics: an
absolute second component discards the first; otherwise a separator is
inserted unless the first component is empty or already ends with one. -/
def osPathJoin (a b : String) : String :=
  if isAbs b then b
  else if a = "" then a ++ b
  else if endsSlash a then a ++ b
  else a ++ "/" ++ b

/-- Models the n-ary `os.path.join(a, *rest)` as a left fold of the
two-argument join. -/
def osPathJoinList (a : String) (rest : List String) : String :=
  rest.foldl osPathJoin a

/-- Models `os.path.basename(p)`: everything after the final slash. -/
def basename (p : String) : String :=
  String.mk ((p.data.reverse.takeWhile (fun c => !decide (c = '/'))).reverse)

/-! ## Filesystem model: association list from paths to file contents -/

/-- Host filesystem model: list of (path, contents) pairs; regular files
only. -/
abbrev Fs := List (String × String)

/-- Contents of the file at path `p`, if present. -/
def fsGet (fs : Fs) (p : String) : Option String :=
  (fs.find? (fun e => decide (e.1 = p))).map Prod.snd

/-- Writes contents `c` at path `p` (used for `shutil.copy` destinations). -/
def fsSet (fs : Fs) (p c : String) : Fs :=
  (p, c) :: fs.filter (fun e => !decide (e.1 = p))

/-- Deletes the file at path `p` if present (used for `os.remove`). -/
def fsDel (fs : Fs) (p : String) : Fs :=
  fs.filter (fun e => !decide (e.1 = p))

theorem fsGet_fsSet_same (fs : Fs) (p c : String) : fsGet (fsSet fs p c) p = some c := by
  simp [fsGet, fsSet, List.find?]

theorem fsDel_of_fsGet_none (fs : Fs) (p : String) (h : fsGet fs p = none) :
    fsDel fs p = fs := by
  induction fs with
  | nil => rfl
  | cons e rest ih =>
    by_cases he : e.1 = p
    · simp [fsGet, List.find?, he] at h
    · have h' : fsGet rest p = none := by
        simpa [fsGet, List.find?, he] using h
      have hstep : fsDel (e :: rest) p = e :: fsDel rest p := by
        simp [fsDel, List.filter_cons, he]
      rw [hstep, ih h']

theorem fsDel_fsSet (fs : Fs) (p c : String) : fsDel (fsSet fs p c) p = fsDel fs p := by
  simp [fsDel, fsSet, List.filter_filter]

theorem fsGet_fsDel_same (fs : Fs) (p : String) : fsGet (fsDel fs p) p = none := by
  induction fs with
  | nil => rfl
  | cons e rest ih =>
    by_cases he : e.1 = p
    · have hstep : fsDel (e :: rest) p = fsDel rest p := by
        simp [fsDel, List.filter_cons, he]
      rw [hstep]
      exact ih
    · have hstep : fsDel (e :: rest) p = e :: fsDel rest p := by
        simp [fsDel, List.filter_cons, he]
      rw [hstep]
      simpa [fsGet, List.find?, he] using ih

/-! ## Image sizing (`tegrity/image.py`) -/

/-- Fuel-based integer ceiling of the base-2 logarithm; `clog2Aux fuel n`
computes the ceiling of log2 of `n` whenever `n ≤ fuel`. -/
def clog2Aux : Nat → Nat → Nat
  | 0, _ => 0
  | fuel + 1, n => if n ≤ 1 then 0 else clog2Aux fuel ((n + 1) / 2) + 1

/-- Integer ceiling of log2 (`math.ceil(math.log(n, 2))` for `n ≥ 1`, with
exact arithmetic in place of floating point). -/
def clog2 (n : Nat) : Nat := clog2Aux n n

/-- Models image.py:59: `sd_size = 2 ** (math.ceil(math.log(rootfs_size + 1, 2)))`,
the SD-card size in GB computed from the estimated rootfs size in GB. -/
def sd_size (rootfs_size : Nat) : Nat := 2 ^ clog2 (rootfs_size + 1)

/-- Modeled from the spec: the estimated rootfs size rounded up to the next
power-of-two gigabyte boundary, i.e. the least power of two that is ≥ `s`. -/
def specRoundPow2 (s : Nat) : Nat := 2 ^ clog2 s

theorem clog2Aux_ge : ∀ fuel n : Nat, n ≤ fuel → n ≤ 2 ^ clog2Aux fuel n := by
  intro fuel
  induction fuel with
  | zero =>
    intro n h
    simp_all [clog2Aux]
  | succ f ih =>
    intro n h
    by_cases h1 : n ≤ 1
    · simp [clog2Aux, h1]
    · have h2 : 2 ≤ n := by omega
      have hf : (n + 1) / 2 ≤ f := by omega
      have hrec := ih ((n + 1) / 2) hf
      have hdouble : n ≤ 2 * ((n + 1) / 2) := by omega
      have : n ≤ 2 * 2 ^ clog2Aux f ((n + 1) / 2) := by
        calc n ≤ 2 * ((n + 1) / 2) := hdouble
          _ ≤ 2 * 2 ^ clog2Aux f ((n + 1) / 2) := by
              exact Nat.mul_le_mul_left 2 hrec
      simpa [clog2Aux, h1, pow_succ, Nat.mul_comm] using this

theorem clog2Aux_min : ∀ fuel n m : Nat, n ≤ fuel → n ≤ 2 ^ m → clog2Aux fuel n ≤ m := by
  intro fuel
  induction fuel with
  | zero =>
    intro n m _ _
    simp [clog2Aux]
  | succ f ih =>
    intro n m h hm
    by_cases h1 : n ≤ 1
    · simp [clog2Aux, h1]
    · have h2 : 2 ≤ n := by omega
      cases m with
      | zero =>
        exfalso
        simp only [pow_zero] at hm
        omega
      | succ m' =>
        have hf : (n + 1) / 2 ≤ f := by omega
        have hm' : (n + 1) / 2 ≤ 2 ^ m' := by
          have : n ≤ 2 * 2 ^ m' := by
            simpa [pow_succ, Nat.mul_comm] using hm
          omega
        have := ih ((n + 1) / 2) m' hf hm'
        simp only [clog2Aux, h1, if_false]
        omega

/-- C9 counterexample: for an estimated rootfs size of 4 GB (already a
power-of-two boundary), the code computes an 8 GB image, not the 4 GB that
"s rounded up to the next power-of-two gigabyte boundary" prescribes. -/
theorem image_sd_size_counterexample :
    sd_size 4 = 8 ∧ specRoundPow2 4 = 4 ∧ sd_size 4 ≠ specRoundPow2 4 := by
  decide

/-- C9 (amended): `make_image` sizes the SD image at the least power-of-two
number of gigabytes strictly greater than the estimated rootfs size `s`
(equivalently, `s + 1` rounded up to a power-of-two boundary — the code first
adds 1 GB of headroom and then rounds up). -/
theorem image_sd_size_next_pow2 (s : Nat) :
    s < sd_size s ∧ (∃ k, sd_size s = 2 ^ k) ∧ (∀ m, s < 2 ^ m → sd_size s ≤ 2 ^ m) := by
  refine ⟨?_, ⟨clog2 (s + 1), rfl⟩, ?_⟩
  · have h := clog2Aux_ge (s + 1) (s + 1) le_rfl
    simpa [sd_size, clog2] using h
  · intro m hm
    have h2 : s + 1 ≤ 2 ^ m := hm
    have h3 := clog2Aux_min (s + 1) (s + 1) m le_rfl h2
    exact Nat.pow_le_pow_right (by norm_num) h3

/-- C9 witness: instantiates the amended sizing theorem at `s = 4`, `m = 3`. -/
theorem image_sd_size_next_pow2_witness :
    (4 : Nat) < 2 ^ 3 ∧ sd_size 4 ≤ 2 ^ 3 :=
  ⟨by decide, (image_sd_size_next_pow2 4).2.2 3 (by decide)⟩

/-! ## String facts used for path reasoning -/

theorem string_data_append (a b : String) : (a ++ b).data = a.data ++ b.data := by
  cases a
  cases b
  rfl

theorem string_eq_of_data {a b : String} (h : a.data = b.data) : a = b := by
  cases a
  cases b
  exact congrArg String.mk h

/-! ## Userspec validation (`QemuRunner.__init__`, qemu.py:186-188) -/

/-- Models the rejection test `':' not in userspec or '-' in userspec` that
`QemuRunner.__init__` applies to a non-empty userspec before raising
`ValueError` (qemu.py:187). Python's `in` on a single-character needle is
character membership. -/
def userspecInvalid (u : String) : Bool :=
  (!decide (':' ∈ u.data)) || decide ('-' ∈ u.data)

/-- Modeled from the spec: a well-formed userspec is `name-or-id:name-or-id`
with both parts non-empty and colon-free; names may themselves contain
hyphens. -/
def specWellFormedUserspec (u : String) : Prop :=
  ∃ a b : String, a ≠ "" ∧ b ≠ "" ∧ ¬ ':' ∈ a.data ∧ ¬ ':' ∈ b.data ∧ u = a ++ ":" ++ b

/-- C7 counterexample: the userspec `"a-b:c"` is a well-formed
`name-or-id:name-or-id` whose user name contains a hyphen, yet construction
rejects it with `ValueError` because of the blanket `'-' in userspec` test. -/
theorem qemu_userspec_hyphen_rejected :
    specWellFormedUserspec ("a-b:c") ∧ userspecInvalid ("a-b:c") = true := by
  constructor
  · exact ⟨"a-b", "c", by decide, by decide, by decide, by decide, by decide⟩
  · decide

/-- C7 (amended): `QemuRunner` construction accepts a userspec exactly when it
contains at least one colon and no hyphen at all — equivalently, every
accepted userspec splits as `a ++ ":" ++ b` and is hyphen-free. Well-formed
userspecs whose names contain hyphens are rejected, and strings with extra
colons (such as `a:b:c`) are accepted. -/
theorem qemu_userspec_validation (u : String) :
    userspecInvalid u = false ↔ ((∃ a b : String, u = a ++ ":" ++ b) ∧ ¬ '-' ∈ u.data) := by
  constructor
  · intro h
    simp only [userspecInvalid, Bool.or_eq_false_iff, Bool.not_eq_false',
      decide_eq_true_eq, decide_eq_false_iff_not] at h
    obtain ⟨hc, hh⟩ := h
    obtain ⟨l1, l2, hsplit⟩ := List.append_of_mem hc
    refine ⟨⟨String.mk l1, String.mk l2, ?_⟩, hh⟩
    apply string_eq_of_data
    rw [hsplit, string_data_append, string_data_append]
    simp
  · rintro ⟨⟨a, b, rfl⟩, hh⟩
    have hc : ':' ∈ (a ++ ":" ++ b).data := by
      rw [string_data_append, string_data_append]
      simp [String.data]
    simp only [userspecInvalid, Bool.or_eq_false_iff, Bool.not_eq_false',
      decide_eq_true_eq, decide_eq_false_iff_not]
    exact ⟨hc, hh⟩

/-- C7 witness: instantiates the validation characterization at the accepted
userspec `user:group`. -/
theorem qemu_userspec_validation_witness :
    userspecInvalid ("user:group") = false ↔
      ((∃ a b : String, "user:group" = a ++ ":" ++ b) ∧
        ¬ '-' ∈ ("user:group" : String).data) :=
  qemu_userspec_validation "user:group"

/-! ## First-boot script installation (`install_first_boot_scripts`,
firstboot.py:331-358) -/

/-- Models Python's `s.rjust(width, fill)`: left-pad to `width`. -/
def rjust (s : String) (width : Nat) (fill : Char) : String :=
  String.mk (List.replicate (width - s.length) fill) ++ s

/-- Models the destination path computed at firstboot.py:352-356:
`os.path.join(tegrity_fb, f"{str(index * 10).rjust(3, '0')}.{os.path.basename(filename)}")`. -/
def numberedDest (tegrity_fb : String) (index : Nat) (filename : String) : String :=
  osPathJoin tegrity_fb (rjust (toString (index * 10)) 3 '0' ++ "." ++ basename filename)

/-- Result of the installation loop: the destinations written (in order) and
whether the `RuntimeError` at firstboot.py:347-351 was raised. -/
structure InstallRes where
  installed : List String
  raised : Bool
deriving DecidableEq

/-- Models the `for index, filename in enumerate(scripts)` loop of
`install_first_boot_scripts` (firstboot.py:346-358): each script is copied to
its numbered destination until index 100 is reached, at which point a
`RuntimeError` is raised with the first 100 scripts already installed. -/
def installLoop (tegrity_fb : String) : Nat → List String → InstallRes
  | _, [] => { installed := [], raised := false }
  | index, filename :: rest =>
    if index = 100 then { installed := [], raised := true }
    else
      let r := installLoop tegrity_fb (index + 1) rest
      { installed := numberedDest tegrity_fb index filename :: r.installed, raised := r.raised }

/-- Models `install_first_boot_scripts(rootfs, scripts, ...)` after
`init_first_boot_folder` has produced the target folder `tegrity_fb`
(firstboot.py:331-358). -/
def install_first_boot_scripts (tegrity_fb : String) (scripts : List String) : InstallRes :=
  installLoop tegrity_fb 0 scripts

/-- Modeled from the spec: `i*10` zero-padded to exactly three digits. -/
def specPad3 (n : Nat) : String :=
  String.mk [Nat.digitChar (n / 100 % 10), Nat.digitChar (n / 10 % 10), Nat.digitChar (n % 10)]

theorem rjust_eq_specPad3 : ∀ i, i < 100 → rjust (toString (i * 10)) 3 '0' = specPad3 (i * 10) := by
  decide

theorem installLoop_length (fb : String) :
    ∀ (l : List String) (idx : Nat), idx ≤ 100 →
      (installLoop fb idx l).installed.length = min (100 - idx) l.length := by
  intro l
  induction l with
  | nil => intro idx _; simp [installLoop]
  | cons f rest ih =>
    intro idx hidx
    by_cases h : idx = 100
    · simp [installLoop, h]
    · have := ih (idx + 1) (by omega)
      simp only [installLoop, h, if_false, List.length_cons]
      omega

theorem installLoop_getD (fb : String) :
    ∀ (l : List String) (idx i : Nat), idx ≤ 100 →
      i < (installLoop fb idx l).installed.length →
      (installLoop fb idx l).installed.getD i "" = numberedDest fb (idx + i) (l.getD i "") := by
  intro l
  induction l with
  | nil =>
    intro idx i _ hi
    simp [installLoop] at hi
  | cons f rest ih =>
    intro idx i hidx hi
    by_cases h : idx = 100
    · simp [installLoop, h] at hi
    · simp only [installLoop, h, if_false] at hi ⊢
      cases i with
      | zero => simp
      | succ i' =>
        simp only [List.getD_cons_succ]
        have := ih (idx + 1) i' (by omega) (by simpa using hi)
        rw [this]
        congr 1
        omega

theorem installLoop_raised (fb : String) :
    ∀ (l : List String) (idx : Nat), idx ≤ 100 →
      ((installLoop fb idx l).raised = true ↔ 100 - idx < l.length) := by
  intro l
  induction l with
  | nil => intro idx _; simp [installLoop]
  | cons f rest ih =>
    intro idx hidx
    by_cases h : idx = 100
    · simp [installLoop, h]
    · have := ih (idx + 1) (by omega)
      simp only [installLoop, h, if_false, List.length_cons]
      rw [this]
      omega

/-- C8: `install_first_boot_scripts` installs script `i` (0-based) under the
destination `tegrity_fb/NNN.<basename>` where `NNN` is `i*10` zero-padded to
three digits; when more than 100 scripts are supplied it raises a fatal
`RuntimeError` having installed exactly the first 100, and the computation is
a pure function of the script list, hence deterministic across runs. -/
theorem firstboot_install_numbering (fb : String) (scripts : List String) :
    (install_first_boot_scripts fb scripts).installed.length = min 100 scripts.length ∧
    (∀ i, i < min 100 scripts.length →
      (install_first_boot_scripts fb scripts).installed.getD i "" =
        osPathJoin fb (specPad3 (i * 10) ++ "." ++ basename (scripts.getD i ""))) ∧
    ((install_first_boot_scripts fb scripts).raised = true ↔ 100 < scripts.length) := by
  refine ⟨?_, ?_, ?_⟩
  · simpa using installLoop_length fb scripts 0 (by omega)
  · intro i hi
    have hlen := installLoop_length fb scripts 0 (by omega)
    have hget := installLoop_getD fb scripts 0 i (by omega) (by omega)
    rw [install_first_boot_scripts, hget]
    have hi100 : i < 100 := by omega
    simp [numberedDest, rjust_eq_specPad3 i hi100]
  · have := installLoop_raised fb scripts 0 (by omega)
    simpa [install_first_boot_scripts] using this

/-- C8 witness: instantiates the numbering theorem for a concrete two-script
install, checking the destination of script index 1. -/
theorem firstboot_install_numbering_witness :
    (install_first_boot_scripts ("/r/etc/tegrity_fb") ["a.sh", "b.sh"]).installed.getD 1 "" =
      osPathJoin ("/r/etc/tegrity_fb")
        (specPad3 (1 * 10) ++ "." ++ basename (["a.sh", "b.sh"].getD 1 "")) :=
  (firstboot_install_numbering ("/r/etc/tegrity_fb") ["a.sh", "b.sh"]).2.1 1 (by decide)

/-! ## Service installation (`tegrity/service.py`) -/

/-- `DEFAULT_BINDIR = ('usr', 'local', 'exe')` (service.py:40). -/
def DEFAULT_BINDIR : List String := ["usr", "local", "exe"]

/-- `bindir = os.path.join(rootfs, *DEFAULT_BINDIR)` (service.py:88). -/
def bindirOf (rootfs : String) : String := osPathJoinList rootfs DEFAULT_BINDIR

/-- `exec_dest = os.path.join(bindir, executable)` (service.py:97). -/
def exec_dest (rootfs executable : String) : String :=
  osPathJoin (bindirOf rootfs) executable

/-- Error outcomes of `shutil.copy`: `SameFileError` when source and
destination name the same file, `FileNotFoundError` when the source is
missing. -/
inductive CopyErr where
  | sameFile (p : String)
  | srcMissing (p : String)
deriving DecidableEq

/-- Models `shutil.copy(src, dest)` on the filesystem model: raises
`SameFileError` when `src` and `dest` are the same path, otherwise copies the
contents of `src` (which must exist) to `dest`. -/
def shutilCopy (fs : Fs) (src dest : String) : Except CopyErr Fs :=
  if src = dest then Except.error (CopyErr.sameFile src)
  else
    match fsGet fs src with
    | none => Except.error (CopyErr.srcMissing src)
    | some c => Except.ok (fsSet fs dest c)

/-- Models the copy step of `service.install` (service.py:96-98): the
executable is copied to `os.path.join(bindir, executable)`; on error the
install aborts before writing anything into the rootfs. -/
def installCopyStep (fs : Fs) (rootfs executable : String) : Except CopyErr Fs :=
  shutilCopy fs executable (exec_dest rootfs executable)

/-- A path `p` lies directly inside directory `dir` when it is `dir`, a
slash, and a slash-free non-empty name. -/
def isDirectlyInside (dir p : String) : Prop :=
  ∃ name : String, name ≠ "" ∧ ¬ '/' ∈ name.data ∧ p = dir ++ "/" ++ name

theorem endsSlash_append (a b : String) (hb : b.data ≠ []) :
    endsSlash (a ++ b) = endsSlash b := by
  rw [endsSlash, endsSlash, string_data_append, List.getLast?_append]
  cases hg : b.data.getLast? with
  | none => simp [List.getLast?_eq_none_iff] at hg; exact absurd hg hb
  | some c => simp

theorem data_append_ne_nil (a b : String) (hb : b.data ≠ []) : (a ++ b).data ≠ [] := by
  rw [string_data_append]
  simp [hb]

theorem osPathJoin_ends (a b : String) (hb : b.data ≠ []) :
    endsSlash (osPathJoin a b) = endsSlash b ∧ (osPathJoin a b).data ≠ [] := by
  rw [osPathJoin]
  by_cases h1 : isAbs b
  · simp [h1, hb]
  · by_cases h2 : a = ""
    · simp [h1, h2, endsSlash_append, data_append_ne_nil, hb]
    · by_cases h3 : endsSlash a
      · simp [h1, h2, h3, endsSlash_append, data_append_ne_nil, hb]
      · simp only [h1, h2, h3, if_false, Bool.false_eq_true]
        exact ⟨endsSlash_append _ _ hb, data_append_ne_nil _ _ hb⟩

theorem bindirOf_shape (rootfs : String) :
    (bindirOf rootfs).data ≠ [] ∧ endsSlash (bindirOf rootfs) = false := by
  have h1 := osPathJoin_ends (osPathJoin (osPathJoin rootfs "usr") "local") "exe" (by decide)
  have h2 : endsSlash ("exe") = false := by decide
  rw [h2] at h1
  exact ⟨h1.2, h1.1⟩

theorem string_ne_empty_of_data {a : String} (h : a.data ≠ []) : a ≠ "" := by
  intro hc
  rw [hc] at h
  exact h rfl

/-- When the final component is relative and the directory is non-empty and
does not end in a slash, `os.path.join` inserts exactly one separator. -/
theorem osPathJoin_rel (d e : String) (he : isAbs e = false) (hd : d ≠ "")
    (hd2 : endsSlash d = false) : osPathJoin d e = d ++ "/" ++ e := by
  simp [osPathJoin, he, hd, hd2]

/-- C10: when `service.install` is given an absolute executable path, the
copy destination `os.path.join(bindir, executable)` collapses to the
executable itself, so the copy step raises `SameFileError` and nothing is
written into the rootfs bin directory; and for relative executables the
destination lies directly inside the rootfs bin directory exactly when the
executable is a bare (slash-free) filename. -/
theorem service_install_abs_collapse (fs : Fs) (rootfs executable : String)
    (habs : isAbs executable = true) :
    exec_dest rootfs executable = executable ∧
    installCopyStep fs rootfs executable = Except.error (CopyErr.sameFile executable) ∧
    (∀ e : String, e ≠ "" → isAbs e = false →
      (isDirectlyInside (bindirOf rootfs) (exec_dest rootfs e) ↔ ¬ '/' ∈ e.data)) := by
  have hdest : exec_dest rootfs executable = executable := by
    simp [exec_dest, osPathJoin, habs]
  refine ⟨hdest, ?_, ?_⟩
  · rw [installCopyStep, hdest, shutilCopy, if_pos rfl]
  · intro e hne hrel
    have hshape := bindirOf_shape rootfs
    have hjoin : exec_dest rootfs e = bindirOf rootfs ++ "/" ++ e :=
      osPathJoin_rel _ _ hrel (string_ne_empty_of_data hshape.1) hshape.2
    constructor
    · rintro ⟨name, hname1, hname2, hname3⟩
      rw [hjoin] at hname3
      have : e.data = name.data := by
        have hd := congrArg String.data hname3
        rw [string_data_append, string_data_append] at hd
        exact List.append_cancel_left hd
      rw [show e = name from string_eq_of_data this]
      exact hname2
    · intro hnoslash
      exact ⟨e, hne, hnoslash, hjoin⟩

/-- C10 witness: instantiates the collapse theorem at the concrete absolute
executable `/usr/bin/app` and the bare relative name `app`. -/
theorem service_install_abs_collapse_witness :
    exec_dest ("/r") ("/usr/bin/app") = ("/usr/bin/app") ∧
    installCopyStep [] ("/r") ("/usr/bin/app") =
      Except.error (CopyErr.sameFile ("/usr/bin/app")) ∧
    (isDirectlyInside (bindirOf ("/r")) (exec_dest ("/r") ("app")) ↔
      ¬ '/' ∈ ("app" : String).data) :=
  have h := service_install_abs_collapse [] "/r" "/usr/bin/app" (by decide)
  ⟨h.1, h.2.1, h.2.2 "app" (by decide) (by decide)⟩

/-! ## The sandboxed rootfs execution core (`tegrity/qemu.py`)

The session is modeled against a world `W` holding the filesystem map and the
stack of active mount targets. Shell-outs (`mount`, `umount`) return exit
codes supplied by oracles — `bindRc` for the translator bind mount, `mRc i`
for the `i`-th descriptor of `mount_kwargs`, `uRc t` for `umount t` — since
the code only observes them through `CompletedProcess.returncode`. Every
external operation issued is recorded in an `Op` trace in issue order. -/

/-- One element of `mount_kwargs`: keyword arguments for `tegrity.utils.mount`
(source, target, optional `-t` type, `-o` options). -/
structure MountKwargs where
  source : String
  target : String
  type_ : Option String := none
  options : List String := []
deriving DecidableEq

/-- External operations issued by the session, in issue order. -/
inductive Op where
  | mountOp (m : MountKwargs)
  | copyOp (src dest : String)
  | umountOp (target : String)
  | removeOp (path : String)
deriving DecidableEq

/-- Exceptions the modeled code can raise: `CalledProcessError` from
`check_returncode()` on the translator bind mount or on plan mount `i`,
`FileNotFoundError`/`SameFileError` from `shutil.copy`, and the uncaught
`FileNotFoundError` that `tegrity.utils.remove` (firstboot.py:265-277) lets
escape when `os.remove` fails on a missing file. -/
inductive Err where
  | bindMountFailed
  | mountFailed (i : Nat)
  | copyFailed (src dest : String)
  | removeNotFound (path : String)
deriving DecidableEq

/-- World state: the filesystem map and the active mount targets, most recent
first. -/
structure W where
  fs : Fs
  mounts : List String
deriving DecidableEq

/-- A world together with the operations issued while reaching it. -/
structure WOps where
  w : W
  ops : List Op
deriving DecidableEq

/-- Models `default_mount_kwargs(rootfs)` (qemu.py:49-133). The resolver
probes `os.path.exists(run_resolv)`, `os.path.exists(etc_resolv)` and
`os.path.islink(etc_resolv)` are supplied as booleans since the builder only
inspects the filesystem through them. -/
def default_mount_kwargs (rootfs : String)
    (runResolvExists etcResolvExists etcResolvIsLink : Bool) : List MountKwargs :=
  let run_resolv := osPathJoinList rootfs ["run", "resolvconf", "resolv.conf"]
  let etc_resolv := osPathJoinList rootfs ["etc", "resolv.conf"]
  let resolv_target : Option String :=
    if runResolvExists && etcResolvIsLink then some run_resolv
    else if etcResolvExists && !etcResolvIsLink then some etc_resolv
    else none
  [{ source := "sysfs", target := osPathJoin rootfs "sys", type_ := some "sysfs",
     options := ["ro", "nosuid", "nodev", "noexec", "relatime"] },
   { source := "proc", target := osPathJoin rootfs "proc", type_ := some "proc",
     options := ["ro", "nosuid", "nodev", "noexec", "relatime"] },
   { source := "/dev", target := osPathJoin rootfs "dev",
     options := ["bind", "ro"] },
   { source := "devpts", target := osPathJoinList rootfs ["dev", "pts"], type_ := some "devpts",
     options := ["rw", "nosuid", "noexec", "relatime", "gid=5", "mode=620", "ptmxmode=000"] },
   { source := "tmpfs", target := osPathJoin rootfs "tmp", type_ := some "tmpfs" }] ++
  (match resolv_target with
   | some t => [{ source := "/etc/resolv.conf", target := t, options := ["bind", "ro"] }]
   | none => [])

/-- The session state held by a `QemuRunner` instance (qemu.py:161-193). -/
structure Session where
  rootfs : String
  qemu : String
  mount_kwargs : List MountKwargs
  userspec : Option String := none
  tmp : String := ""
  qemu_copied : Option String := none
  mounted : List String := []
  scripts : List String := []
deriving DecidableEq

/-- Builds the state `QemuRunner.__init__` leaves behind after its checks
pass (qemu.py:161-193): `tmp = os.path.join(rootfs, 'tmp')`, no translator
copied, nothing mounted, no staged scripts. -/
def mkSession (rootfs qemu : String) (mount_kwargs : List MountKwargs)
    (userspec : Option String) : Session :=
  { rootfs := rootfs, qemu := qemu, mount_kwargs := mount_kwargs, userspec := userspec,
    tmp := osPathJoin rootfs "tmp", qemu_copied := none, mounted := [], scripts := [] }

/-- The in-rootfs translator path
`os.path.join(rootfs, 'usr', 'bin', os.path.basename(qemu))` (qemu.py:199-200). -/
def qemuTarget (rootfs qemu : String) : String :=
  osPathJoinList rootfs ["usr", "bin", basename qemu]

/-- Models `QemuRunner._base_command` (qemu.py:243-250): `chroot`, an optional
`--userspec=` flag (call argument first, else the session default), then the
rootfs path. -/
def base_command (s : Session) (userspec : Option String) : List String :=
  ["chroot"] ++
  (match userspec with
   | some u => ["--userspec=" ++ u]
   | none =>
     match s.userspec with
     | some u => ["--userspec=" ++ u]
     | none => []) ++
  [s.rootfs]

/-- Models `QemuRunner.run_cmd` (qemu.py:257-261). The first component is the
chroot-prefixed vector `cmd` the method builds (lines 259-260); the second is
the vector actually passed to `tegrity.utils.run` at line 261 — the raw
`command` argument. -/
def runCmd (s : Session) (command : List String) (userspec : Option String) :
    List String × List String :=
  (base_command s userspec ++ command, command)

/-- Models `QemuRunner.run_script` (qemu.py:263-270): stages the script at
`os.path.join(self.tmp, script)`, appends that destination to the cleanup
list before executing, and runs `os.path.join('/tmp', script)` plus options
through `run_cmd`. Returns the updated session, the staged destination, and
the vector actually executed. -/
def run_script (s : Session) (script : String) (options : List String)
    (userspec : Option String) : Session × String × List String :=
  let dest := osPathJoin s.tmp script
  let s' := { s with scripts := s.scripts ++ [dest] }
  let dest_in_chroot := osPathJoin ("/tmp") script
  (s', dest, (runCmd s' (dest_in_chroot :: options) userspec).2)

/-- Models the `for mount in reversed(self._mounted): tegrity.utils.umount(mount)`
loop of `__exit__` (qemu.py:234-236): each `umount` is issued in order; its
exit code is ignored by the code, so a non-zero code leaves the mount active
but the loop always continues. -/
def umountAll (w : W) (uRc : String → Nat) : List String → WOps
  | [] => { w := w, ops := [] }
  | t :: rest =>
    let w1 := if uRc t = 0 then { w with mounts := w.mounts.erase t } else w
    let r := umountAll w1 uRc rest
    { w := r.w, ops := Op.umountOp t :: r.ops }

/-- Models the staged-script cleanup loop of `__exit__` (qemu.py:237-241):
`tegrity.utils.remove(script)` inside `try/except Exception`, so a present
file is deleted, any failure is logged and swallowed, and the loop always
continues. -/
def removeScripts (w : W) : List String → WOps
  | [] => { w := w, ops := [] }
  | p :: rest =>
    let w1 : W := { w with fs := fsDel w.fs p }
    let r := removeScripts w1 rest
    { w := r.w, ops := Op.removeOp p :: r.ops }

/-- Result of teardown: final world, issued operations, and the exception
that escaped `__exit__`, if any. -/
structure ExitRes where
  w : W
  ops : List Op
  err : Option Err
deriving DecidableEq

/-- Models `QemuRunner.__exit__` (qemu.py:226-241). Step 1: if the translator
was copied, `tegrity.utils.remove` is called on it; `_remove`
(firstboot.py:265-277) only catches `IsADirectoryError`, so when `os.remove`
fails on a missing file the `FileNotFoundError` escapes `__exit__` and the
unmount and script-cleanup loops are never reached. Step 2: unmount every
recorded target in reverse order (exit codes ignored). Step 3: best-effort
deletion of every staged script. -/
def exitRun (s : Session) (w : W) (uRc : String → Nat) : ExitRes :=
  match s.qemu_copied with
  | some p =>
    if (fsGet w.fs p).isSome then
      let w1 : W := { w with fs := fsDel w.fs p }
      let u := umountAll w1 uRc s.mounted.reverse
      let r := removeScripts u.w s.scripts
      { w := r.w, ops := Op.removeOp p :: (u.ops ++ r.ops), err := none }
    else
      { w := w, ops := [Op.removeOp p], err := some (Err.removeNotFound p) }
  | none =>
    let u := umountAll w uRc s.mounted.reverse
    let r := removeScripts u.w s.scripts
    { w := r.w, ops := u.ops ++ r.ops, err := none }

/-- Result of the `for kwargs in self.mount_kwargs` loop (qemu.py:213-216):
the world after the successful mounts, the mount commands issued, the updated
`_mounted` list, and the position whose `check_returncode()` raised, if
any. -/
structure LoopRes where
  w : W
  ops : List Op
  mounted : List String
  fail : Option Nat
deriving DecidableEq

/-- Models the plan-mount loop of `__enter__` (qemu.py:213-216): descriptors
are mounted in list order; each target is appended to `_mounted` immediately
after its mount succeeds; the first non-zero exit code raises
`CalledProcessError` and stops the loop. -/
def mountLoop (mRc : Nat → Nat) (w : W) (idx : Nat) (acc : List String) :
    List MountKwargs → LoopRes
  | [] => { w := w, ops := [], mounted := acc, fail := none }
  | m :: rest =>
    if mRc idx = 0 then
      let w1 : W := { w with mounts := m.target :: w.mounts }
      let r := mountLoop mRc w1 (idx + 1) (acc ++ [m.target]) rest
      { w := r.w, ops := Op.mountOp m :: r.ops, mounted := r.mounted, fail := r.fail }
    else
      { w := w, ops := [Op.mountOp m], mounted := acc, fail := some idx }

/-- Result of `__enter__`: final world, issued operations, and either the
session handed to the caller body or the exception re-raised. -/
structure EnterRes where
  w : W
  ops : List Op
  res : Except Err Session

/-- Shared tail of `__enter__`: runs the plan-mount loop on the session as
left by the translator step; on a failure, `__exit__` runs on everything
acquired so far and the original error is re-raised (qemu.py:218-223) —
unless `__exit__` itself raises, in which case that error escapes instead. -/
def enterLoop (s1 : Session) (w1 : W) (mRc : Nat → Nat) (uRc : String → Nat)
    (ops0 : List Op) : EnterRes :=
  let r := mountLoop mRc w1 0 s1.mounted s1.mount_kwargs
  match r.fail with
  | none =>
    { w := r.w, ops := ops0 ++ r.ops, res := Except.ok { s1 with mounted := r.mounted } }
  | some k =>
    let s2 := { s1 with mounted := r.mounted }
    let c := exitRun s2 r.w uRc
    { w := c.w, ops := ops0 ++ r.ops ++ c.ops,
      res := Except.error (match c.err with | some e => e | none => Err.mountFailed k) }

/-- Models `QemuRunner.__enter__` (qemu.py:195-224). If a file already exists
at the in-rootfs translator path, the host translator is bind-mounted onto it
read-only and the target recorded in `_mounted`; otherwise the translator is
copied there and `_qemu_copied` records the path. Then the mount plan runs.
Any error triggers `self.__exit__(None, None, None)` followed by `raise`. -/
def enter (s : Session) (w : W) (bindRc : Nat) (mRc : Nat → Nat)
    (uRc : String → Nat) : EnterRes :=
  let target := qemuTarget s.rootfs s.qemu
  if (fsGet w.fs target).isSome then
    let bindOp := Op.mountOp { source := s.qemu, target := target, options := ["bind", "ro"] }
    if bindRc = 0 then
      let w1 : W := { w with mounts := target :: w.mounts }
      let s1 := { s with mounted := s.mounted ++ [target] }
      enterLoop s1 w1 mRc uRc [bindOp]
    else
      let c := exitRun s w uRc
      { w := c.w, ops := bindOp :: c.ops,
        res := Except.error (match c.err with | some e => e | none => Err.bindMountFailed) }
  else
    match fsGet w.fs s.qemu with
    | some qc =>
      let w1 : W := { w with fs := fsSet w.fs target qc }
      let s1 := { s with qemu_copied := some target }
      enterLoop s1 w1 mRc uRc [Op.copyOp s.qemu target]
    | none =>
      let c := exitRun s w uRc
      { w := c.w, ops := Op.copyOp s.qemu target :: c.ops,
        res := Except.error (match c.err with | some e => e | none => Err.copyFailed s.qemu target) }

/-- The unmount targets appearing in a trace, in issue order. -/
def umountTargets (ops : List Op) : List String :=
  ops.filterMap (fun o => match o with | Op.umountOp t => some t | _ => none)

/-! ## Lemmas about the session model -/

theorem umountAll_ops (uRc : String → Nat) :
    ∀ (l : List String) (w : W), (umountAll w uRc l).ops = l.map Op.umountOp := by
  intro l
  induction l with
  | nil => intro w; rfl
  | cons t rest ih => intro w; simp [umountAll, ih]

theorem umountAll_fs (uRc : String → Nat) :
    ∀ (l : List String) (w : W), (umountAll w uRc l).w.fs = w.fs := by
  intro l
  induction l with
  | nil => intro w; rfl
  | cons t rest ih =>
    intro w
    by_cases h : uRc t = 0 <;> simp [umountAll, h, ih]

theorem umountAll_restore (uRc : String → Nat) (h : ∀ t, uRc t = 0) :
    ∀ (ys base : List String) (w : W), w.mounts = ys ++ base →
      (umountAll w uRc ys).w.mounts = base := by
  intro ys
  induction ys with
  | nil => intro base w hw; simpa [umountAll] using hw
  | cons y rest ih =>
    intro base w hw
    have herase : w.mounts.erase y = rest ++ base := by
      rw [hw]
      exact List.erase_cons_head y (rest ++ base)
    simp only [umountAll, h y, if_pos]
    exact ih base { w with mounts := w.mounts.erase y } herase

theorem removeScripts_ops :
    ∀ (l : List String) (w : W), (removeScripts w l).ops = l.map Op.removeOp := by
  intro l
  induction l with
  | nil => intro w; rfl
  | cons p rest ih => intro w; simp [removeScripts, ih]

theorem removeScripts_mounts :
    ∀ (l : List String) (w : W), (removeScripts w l).w.mounts = w.mounts := by
  intro l
  induction l with
  | nil => intro w; rfl
  | cons p rest ih => intro w; simp [removeScripts, ih]

theorem umountTargets_append (a b : List Op) :
    umountTargets (a ++ b) = umountTargets a ++ umountTargets b := by
  simp [umountTargets, List.filterMap_append]

theorem umountTargets_umountOps (l : List String) :
    umountTargets (l.map Op.umountOp) = l := by
  induction l with
  | nil => rfl
  | cons t rest ih =>
    simp only [umountTargets] at ih
    simpa only [umountTargets, List.map_cons, List.filterMap_cons] using
      congrArg (fun x => t :: x) ih

theorem umountTargets_mountOps (l : List MountKwargs) :
    umountTargets (l.map Op.mountOp) = [] := by
  induction l with
  | nil => rfl
  | cons m rest ih =>
    simp only [umountTargets] at ih
    simpa only [umountTargets, List.map_cons, List.filterMap_cons] using ih

theorem umountTargets_removeOps (l : List String) :
    umountTargets (l.map Op.removeOp) = [] := by
  induction l with
  | nil => rfl
  | cons p rest ih =>
    simp only [umountTargets] at ih
    simpa only [umountTargets, List.map_cons, List.filterMap_cons] using ih

theorem umountTargets_cons_remove (p : String) (ops : List Op) :
    umountTargets (Op.removeOp p :: ops) = umountTargets ops := by
  simp [umountTargets, List.filterMap_cons]

theorem mountLoop_ok (mRc : Nat → Nat) (hm : ∀ i, mRc i = 0) :
    ∀ (l : List MountKwargs) (idx : Nat) (acc : List String) (w : W),
      mountLoop mRc w idx acc l =
        { w := { w with mounts := (l.map MountKwargs.target).reverse ++ w.mounts },
          ops := l.map Op.mountOp,
          mounted := acc ++ l.map MountKwargs.target,
          fail := none } := by
  intro l
  induction l with
  | nil => intro idx acc w; simp [mountLoop]
  | cons m rest ih =>
    intro idx acc w
    have ihe := ih (idx + 1) (acc ++ [m.target]) { w with mounts := m.target :: w.mounts }
    simp [mountLoop, hm idx, ihe]

theorem mountLoop_fail (mRc : Nat → Nat) :
    ∀ (l : List MountKwargs) (j idx : Nat) (acc : List String) (w : W),
      j < l.length → (∀ i, i < j → mRc (idx + i) = 0) → mRc (idx + j) ≠ 0 →
      mountLoop mRc w idx acc l =
        { w := { w with mounts := ((l.take j).map MountKwargs.target).reverse ++ w.mounts },
          ops := (l.take (j + 1)).map Op.mountOp,
          mounted := acc ++ (l.take j).map MountKwargs.target,
          fail := some (idx + j) } := by
  intro l
  induction l with
  | nil =>
    intro j idx acc w hj _ _
    simp at hj
  | cons m rest ih =>
    intro j idx acc w hj hlt hfail
    cases j with
    | zero =>
      rw [Nat.add_zero] at hfail
      rw [mountLoop, if_neg hfail]
      simp
    | succ j' =>
      have h0 : mRc idx = 0 := by
        have := hlt 0 (by omega)
        simpa using this
      have hlt' : ∀ i, i < j' → mRc (idx + 1 + i) = 0 := by
        intro i hi
        have := hlt (i + 1) (by omega)
        rw [show idx + 1 + i = idx + (i + 1) by omega]
        exact this
      have hfail' : mRc (idx + 1 + j') ≠ 0 := by
        rw [show idx + 1 + j' = idx + (j' + 1) by omega]
        exact hfail
      have ihe := ih j' (idx + 1) (acc ++ [m.target]) { w with mounts := m.target :: w.mounts }
        (by simpa using hj) hlt' hfail'
      simp only [mountLoop]
      rw [if_pos h0]
      simp only [ihe]
      simp [List.reverse_cons, List.append_assoc, List.take_succ_cons,
        LoopRes.mk.injEq, W.mk.injEq]
      omega

/-! ## C1 / C6: command and script dispatch -/

/-- C1: against the claim that `run_cmd` executes the chroot-prefixed vector,
the code builds `cmd = self._base_command(...) + command` and then passes the
raw `command` to `tegrity.utils.run` (qemu.py:261), so the executed vector
carries no `chroot` prefix at all — evidence for the code bug. -/
theorem qemu_runCmd_executes_raw :
    (runCmd (mkSession ("/r") ("/usr/bin/qemu-aarch64-static") [] (some "u:g")) ["true"] none).2 = ["true"] ∧
    (runCmd (mkSession ("/r") ("/usr/bin/qemu-aarch64-static") [] (some "u:g")) ["true"] none).1 = ["chroot", "--userspec=u:g", "/r", "true"] ∧
    (runCmd (mkSession ("/r") ("/usr/bin/qemu-aarch64-static") [] (some "u:g")) ["true"] none).2 ≠
      (runCmd (mkSession ("/r") ("/usr/bin/qemu-aarch64-static") [] (some "u:g")) ["true"] none).1 := by
  decide

/-- C6: evidence for the code bug in `run_script`. For the bare script name
`setup.sh` the staged destination and cleanup-list entry are correct, but the
vector actually executed is `['/tmp/setup.sh']` — not the chroot-prefixed
vector the claim requires, because `run_cmd` discards its built prefix
(qemu.py:261). For an absolute script path, `os.path.join(self.tmp, script)`
collapses to the script path itself, so the "staged" destination is not in
the rootfs staging directory at all. -/
theorem qemu_run_script_failing_input :
    (run_script (mkSession ("/r") ("/usr/bin/qemu-aarch64-static") [] none) ("setup.sh") [] none).1.scripts = ["/r/tmp/setup.sh"] ∧
    (run_script (mkSession ("/r") ("/usr/bin/qemu-aarch64-static") [] none) ("setup.sh") [] none).2.1 = "/r/tmp/setup.sh" ∧
    (run_script (mkSession ("/r") ("/usr/bin/qemu-aarch64-static") [] none) ("setup.sh") [] none).2.2 = ["/tmp/setup.sh"] ∧
    (run_script (mkSession ("/r") ("/usr/bin/qemu-aarch64-static") [] none) ("setup.sh") [] none).2.2 ≠
      base_command (mkSession ("/r") ("/usr/bin/qemu-aarch64-static") [] none) none ++ ["/tmp/setup.sh"] ∧
    (run_script (mkSession ("/r") ("/usr/bin/qemu-aarch64-static") [] none) ("/home/u/setup.sh") [] none).2.1 = "/home/u/setup.sh" := by
  decide

/-! ## C2: teardown error handling -/

/-- C2 counterexample: teardown from a state where the translator was copied
but the copied file is no longer present (for example because a command run
in the session removed or replaced it): `os.remove` raises
`FileNotFoundError`, `_remove` (firstboot.py:265-277) does not catch it, the
exception escapes `__exit__`, and the recorded mount `/r/sys` is never
unmounted and the staged script never deleted — contradicting "logged and
never raised; teardown always attempts every remaining step". -/
theorem qemu_exit_remove_raises_counterexample :
    let s : Session :=
      { rootfs := "/r", qemu := "/usr/bin/qemu-aarch64-static", mount_kwargs := [],
        userspec := none, tmp := "/r/tmp",
        qemu_copied := some "/r/usr/bin/qemu-aarch64-static",
        mounted := ["/r/sys"], scripts := ["/r/tmp/setup.sh"] }
    let w : W := { fs := [("/r/tmp/setup.sh", "S")], mounts := ["/r/sys"] }
    (exitRun s w (fun _ => 0)).err = some (Err.removeNotFound "/r/usr/bin/qemu-aarch64-static") ∧
    umountTargets (exitRun s w (fun _ => 0)).ops = [] ∧
    (exitRun s w (fun _ => 0)).w.mounts = ["/r/sys"] ∧
    fsGet (exitRun s w (fun _ => 0)).w.fs "/r/tmp/setup.sh" = some "S" := by
  decide

/-- C2 (amended): during teardown, unmount failures and staged-script
deletion failures never raise and never stop the remaining steps — every
recorded mount target is passed to `umount` in reverse order and every staged
script is passed to `remove`, whatever their outcomes (unmount failures are
silently ignored rather than logged). However, if deleting the copied
translator file itself fails (the file is gone), the `FileNotFoundError`
escapes `__exit__` and no unmount or script deletion is attempted. -/
theorem qemu_exit_best_effort (s : Session) (w : W) (uRc : String → Nat)
    (h : ∀ p, s.qemu_copied = some p → (fsGet w.fs p).isSome = true) :
    (exitRun s w uRc).err = none ∧
    (exitRun s w uRc).ops =
      (match s.qemu_copied with | some p => [Op.removeOp p] | none => []) ++
      s.mounted.reverse.map Op.umountOp ++ s.scripts.map Op.removeOp := by
  cases hq : s.qemu_copied with
  | none =>
    simp [exitRun, hq, umountAll_ops, removeScripts_ops]
  | some p =>
    have hp := h p hq
    simp [exitRun, hq, hp, umountAll_ops, removeScripts_ops]

/-- C2 witness: instantiates the amended teardown theorem on a session whose
copied translator file is still present, with an unmount oracle that fails on
every target. -/
theorem qemu_exit_best_effort_witness :
    (∀ p : String,
      ({ rootfs := "/r", qemu := "/q", mount_kwargs := [], userspec := none, tmp := "/r/tmp",
         qemu_copied := some "/r/usr/bin/q", mounted := ["/r/sys", "/r/proc"],
         scripts := ["/r/tmp/a.sh"] } : Session).qemu_copied = some p →
      (fsGet [("/r/usr/bin/q", "Q")] p).isSome = true) ∧
    (exitRun
      { rootfs := "/r", qemu := "/q", mount_kwargs := [], userspec := none, tmp := "/r/tmp",
        qemu_copied := some "/r/usr/bin/q", mounted := ["/r/sys", "/r/proc"],
        scripts := ["/r/tmp/a.sh"] }
      { fs := [("/r/usr/bin/q", "Q")], mounts := ["/r/proc", "/r/sys"] }
      (fun _ => 1)).ops =
      [Op.removeOp "/r/usr/bin/q", Op.umountOp "/r/proc", Op.umountOp "/r/sys",
       Op.removeOp "/r/tmp/a.sh"] := by
  constructor
  · intro p hp
    cases hp
    decide
  · have h := qemu_exit_best_effort
      { rootfs := "/r", qemu := "/q", mount_kwargs := [], userspec := none, tmp := "/r/tmp",
        qemu_copied := some "/r/usr/bin/q", mounted := ["/r/sys", "/r/proc"],
        scripts := ["/r/tmp/a.sh"] }
      { fs := [("/r/usr/bin/q", "Q")], mounts := ["/r/proc", "/r/sys"] }
      (fun _ => 1)
      (by intro p hp; cases hp; decide)
    rw [h.2]
    decide

/-- Characterizes a fully successful `__enter__` when a translator file is
already present in the rootfs: the host binary is bind-mounted read-only over
it, every plan descriptor is mounted, and the `_mounted` list records the
bind target followed by the plan targets in order. -/
theorem enter_ok_bind (rootfs qemu : String) (mkw : List MountKwargs) (us : Option String)
    (w : W) (bindRc : Nat) (mRc : Nat → Nat) (uRc : String → Nat)
    (hbind : bindRc = 0) (hm : ∀ i, mRc i = 0)
    (ht : (fsGet w.fs (qemuTarget rootfs qemu)).isSome = true) :
    enter (mkSession rootfs qemu mkw us) w bindRc mRc uRc =
      { w := { w with mounts :=
                 (mkw.map MountKwargs.target).reverse ++ qemuTarget rootfs qemu :: w.mounts },
        ops := Op.mountOp { source := qemu, target := qemuTarget rootfs qemu, options := ["bind", "ro"] } :: mkw.map Op.mountOp,
        res := Except.ok
          { rootfs := rootfs, qemu := qemu, mount_kwargs := mkw, userspec := us,
            tmp := osPathJoin rootfs "tmp", qemu_copied := none,
            mounted := qemuTarget rootfs qemu :: mkw.map MountKwargs.target,
            scripts := [] } } := by
  have hml := mountLoop_ok mRc hm mkw 0 [qemuTarget rootfs qemu]
    { w with mounts := qemuTarget rootfs qemu :: w.mounts }
  simp [enter, mkSession, ht, hbind, enterLoop, hml]

/-- Characterizes a fully successful `__enter__` when no translator file
exists in the rootfs: the host binary is copied to the target path,
`_qemu_copied` records it, and `_mounted` records the plan targets in order. -/
theorem enter_ok_copy (rootfs qemu qc : String) (mkw : List MountKwargs) (us : Option String)
    (w : W) (bindRc : Nat) (mRc : Nat → Nat) (uRc : String → Nat)
    (hm : ∀ i, mRc i = 0)
    (ht : fsGet w.fs (qemuTarget rootfs qemu) = none)
    (hq : fsGet w.fs qemu = some qc) :
    enter (mkSession rootfs qemu mkw us) w bindRc mRc uRc =
      { w := { w with fs := fsSet w.fs (qemuTarget rootfs qemu) qc, mounts := (mkw.map MountKwargs.target).reverse ++ w.mounts },
        ops := Op.copyOp qemu (qemuTarget rootfs qemu) :: mkw.map Op.mountOp,
        res := Except.ok
          { rootfs := rootfs, qemu := qemu, mount_kwargs := mkw, userspec := us,
            tmp := osPathJoin rootfs "tmp", qemu_copied := some (qemuTarget rootfs qemu),
            mounted := mkw.map MountKwargs.target, scripts := [] } } := by
  have hml := mountLoop_ok mRc hm mkw 0 []
    { w with fs := fsSet w.fs (qemuTarget rootfs qemu) qc }
  simp [enter, mkSession, ht, hq, enterLoop, hml]

/-- C3: for every session whose mount plan (base `default_mount_kwargs`
descriptors plus caller-appended descriptors) and translator step were all
successfully acquired, closing the session issues unmount operations on
exactly the recorded targets — the optional translator bind target followed
by the plan targets in acquisition order — in the exact reverse of that
order. -/
theorem qemu_close_unmounts_exact_reverse (rootfs qemu : String)
    (rrE erE erL : Bool) (additional : List MountKwargs) (w : W)
    (bindRc : Nat) (mRc : Nat → Nat) (uRc : String → Nat)
    (hbind : bindRc = 0) (hm : ∀ i, mRc i = 0)
    (hq : fsGet w.fs (qemuTarget rootfs qemu) = none → (fsGet w.fs qemu).isSome = true) :
    ∀ s', (enter (mkSession rootfs qemu
        (default_mount_kwargs rootfs rrE erE erL ++ additional) none) w bindRc mRc uRc).res =
          Except.ok s' →
      s'.mounted =
        (if (fsGet w.fs (qemuTarget rootfs qemu)).isSome then [qemuTarget rootfs qemu] else []) ++
          (default_mount_kwargs rootfs rrE erE erL ++ additional).map MountKwargs.target ∧
      umountTargets (exitRun s'
          (enter (mkSession rootfs qemu (default_mount_kwargs rootfs rrE erE erL ++ additional)
            none) w bindRc mRc uRc).w uRc).ops = s'.mounted.reverse := by
  intro s' hres
  by_cases ht : (fsGet w.fs (qemuTarget rootfs qemu)).isSome = true
  · rw [enter_ok_bind rootfs qemu _ none w bindRc mRc uRc hbind hm ht] at hres ⊢
    simp only [Except.ok.injEq] at hres
    subst hres
    constructor
    · simp [ht]
    · simp only [exitRun, removeScripts, umountAll_ops, List.append_nil]
      exact umountTargets_umountOps _
  · have htn : fsGet w.fs (qemuTarget rootfs qemu) = none := by
      cases hcase : fsGet w.fs (qemuTarget rootfs qemu) with
      | none => rfl
      | some c => rw [hcase] at ht; simp at ht
    obtain ⟨qc, hqc⟩ := Option.isSome_iff_exists.mp (hq htn)
    rw [enter_ok_copy rootfs qemu qc _ none w bindRc mRc uRc hm htn hqc] at hres ⊢
    simp only [Except.ok.injEq] at hres
    subst hres
    constructor
    · simp [ht]
    · have hpresent : (fsGet (fsSet w.fs (qemuTarget rootfs qemu) qc)
          (qemuTarget rootfs qemu)).isSome = true := by
        rw [fsGet_fsSet_same]
        rfl
      simp only [exitRun, hpresent, eq_self_iff_true, if_true, removeScripts,
        umountAll_ops, List.append_nil, umountTargets_cons_remove]
      exact umountTargets_umountOps _

/-- C3 witness: instantiates the reverse-unmount theorem for a concrete
session over the base mount plan plus one caller-appended bind mount, with a
translator file already present in the rootfs. -/
theorem qemu_close_unmounts_exact_reverse_witness :
    let mkw := default_mount_kwargs ("/r") false false false ++
      ([{ source := "/x", target := "/r/x", options := ["bind"] }] : List MountKwargs)
    let w : W := { fs := [("/r/usr/bin/qemu-aarch64-static", "orig")], mounts := [] }
    let s' : Session :=
      { rootfs := "/r", qemu := "/q/qemu-aarch64-static", mount_kwargs := mkw,
        userspec := none, tmp := "/r/tmp", qemu_copied := none,
        mounted := ["/r/usr/bin/qemu-aarch64-static", "/r/sys", "/r/proc", "/r/dev",
          "/r/dev/pts", "/r/tmp", "/r/x"],
        scripts := [] }
    s'.mounted =
      (if (fsGet w.fs (qemuTarget "/r" "/q/qemu-aarch64-static")).isSome
        then [qemuTarget "/r" "/q/qemu-aarch64-static"] else []) ++
        mkw.map MountKwargs.target ∧
    umountTargets (exitRun s'
      (enter (mkSession "/r" "/q/qemu-aarch64-static" mkw none) w 0
        (fun _ => 0) (fun _ => 0)).w (fun _ => 0)).ops = s'.mounted.reverse := by
  intro mkw w s'
  exact qemu_close_unmounts_exact_reverse "/r" "/q/qemu-aarch64-static" false false false
    [{ source := "/x", target := "/r/x", options := ["bind"] }] w 0 (fun _ => 0) (fun _ => 0)
    rfl (fun _ => rfl) (fun hcon => absurd hcon (by decide)) s' (by rfl)

/-- C4: if the plan mount at position `k` fails while the session is opening,
then exactly the translator step and the mounts at positions `0..k` are ever
issued (nothing at a later position is attempted, and position `k` itself
fails without taking effect), the mounts recorded so far — the translator
bind target, if any, and positions `0..k-1` — are unmounted during teardown
in reverse order, no `Active` session is handed to the caller, and the
original `CalledProcessError` of position `k` is re-raised unchanged. -/
theorem qemu_mount_failure_cleanup (rootfs qemu : String) (mkw : List MountKwargs)
    (k : Nat) (w : W) (bindRc : Nat) (mRc : Nat → Nat) (uRc : String → Nat)
    (hk : k < mkw.length) (hlt : ∀ i, i < k → mRc i = 0) (hfail : mRc k ≠ 0)
    (hbind : bindRc = 0)
    (hq : fsGet w.fs (qemuTarget rootfs qemu) = none → (fsGet w.fs qemu).isSome = true) :
    (enter (mkSession rootfs qemu mkw none) w bindRc mRc uRc).res =
        Except.error (Err.mountFailed k) ∧
    (enter (mkSession rootfs qemu mkw none) w bindRc mRc uRc).ops =
      (if (fsGet w.fs (qemuTarget rootfs qemu)).isSome
        then [Op.mountOp { source := qemu, target := qemuTarget rootfs qemu, options := ["bind", "ro"] }]
        else [Op.copyOp qemu (qemuTarget rootfs qemu)]) ++
      (mkw.take (k + 1)).map Op.mountOp ++
      (if (fsGet w.fs (qemuTarget rootfs qemu)).isSome then []
        else [Op.removeOp (qemuTarget rootfs qemu)]) ++
      ((if (fsGet w.fs (qemuTarget rootfs qemu)).isSome then [qemuTarget rootfs qemu] else []) ++
        (mkw.take k).map MountKwargs.target).reverse.map Op.umountOp := by
  have hlt0 : ∀ i, i < k → mRc (0 + i) = 0 := by
    intro i hi
    simpa using hlt i hi
  have hfail0 : mRc (0 + k) ≠ 0 := by
    simpa using hfail
  by_cases ht : (fsGet w.fs (qemuTarget rootfs qemu)).isSome = true
  · have hmf := mountLoop_fail mRc mkw k 0 [qemuTarget rootfs qemu]
      { w with mounts := qemuTarget rootfs qemu :: w.mounts } hk hlt0 hfail0
    constructor
    · simp [enter, mkSession, ht, hbind, enterLoop, hmf, exitRun]
    · simp [enter, mkSession, ht, hbind, enterLoop, hmf, exitRun, removeScripts,
        umountAll_ops, List.append_nil]
  · have htn : fsGet w.fs (qemuTarget rootfs qemu) = none := by
      cases hcase : fsGet w.fs (qemuTarget rootfs qemu) with
      | none => rfl
      | some c => rw [hcase] at ht; simp at ht
    obtain ⟨qc, hqc⟩ := Option.isSome_iff_exists.mp (hq htn)
    have hmf := mountLoop_fail mRc mkw k 0 []
      { w with fs := fsSet w.fs (qemuTarget rootfs qemu) qc } hk hlt0 hfail0
    have hpresent : (fsGet (fsSet w.fs (qemuTarget rootfs qemu) qc)
        (qemuTarget rootfs qemu)).isSome = true := by
      rw [fsGet_fsSet_same]
      rfl
    constructor
    · simp [enter, mkSession, ht, htn, hqc, enterLoop, hmf, exitRun, hpresent]
    · simp [enter, mkSession, ht, htn, hqc, enterLoop, hmf, exitRun, hpresent,
        removeScripts, umountAll_ops, List.append_nil]

/-- C4 witness: instantiates the partial-teardown theorem with the base mount
plan and an oracle that fails the mount at position 2 (`/r/dev`); the
translator is copied since the rootfs has no translator file. -/
theorem qemu_mount_failure_cleanup_witness :
    let mkw := default_mount_kwargs ("/r") false false false
    let w : W := { fs := [("/q/qemu-aarch64-static", "Q")], mounts := [] }
    let mRc : Nat → Nat := fun i => if i < 2 then 0 else 1
    (enter (mkSession "/r" "/q/qemu-aarch64-static" mkw none) w 0 mRc (fun _ => 0)).res =
        Except.error (Err.mountFailed 2) ∧
    (enter (mkSession "/r" "/q/qemu-aarch64-static" mkw none) w 0 mRc (fun _ => 0)).ops =
      (if (fsGet w.fs (qemuTarget "/r" "/q/qemu-aarch64-static")).isSome
        then [Op.mountOp { source := "/q/qemu-aarch64-static", target := qemuTarget "/r" "/q/qemu-aarch64-static", options := ["bind", "ro"] }]
        else [Op.copyOp "/q/qemu-aarch64-static" (qemuTarget "/r" "/q/qemu-aarch64-static")]) ++
      (mkw.take (2 + 1)).map Op.mountOp ++
      (if (fsGet w.fs (qemuTarget "/r" "/q/qemu-aarch64-static")).isSome then []
        else [Op.removeOp (qemuTarget "/r" "/q/qemu-aarch64-static")]) ++
      ((if (fsGet w.fs (qemuTarget "/r" "/q/qemu-aarch64-static")).isSome
          then [qemuTarget "/r" "/q/qemu-aarch64-static"] else []) ++
        (mkw.take 2).map MountKwargs.target).reverse.map Op.umountOp := by
  intro mkw w mRc
  exact qemu_mount_failure_cleanup "/r" "/q/qemu-aarch64-static" mkw 2 w 0 mRc
    (fun _ => 0) (by decide) (fun i hi => by interval_cases i <;> rfl) (by decide) rfl
    (fun _ => by decide)

/-- C5: opening a session bind-mounts the host translator read-only over an
already-present translator file without ever writing to the filesystem, and
close unmounts it; when no translator file exists, the host translator is
copied in and the copy is deleted on close. In both cases, after an
enter-then-close pair the filesystem equals the original one — in particular
the rootfs translator path holds byte-identical contents (the original file,
or nothing) — and the mount table is restored. -/
theorem qemu_translator_preserved (rootfs qemu : String) (mkw : List MountKwargs) (w : W)
    (bindRc : Nat) (mRc : Nat → Nat) (uRc : String → Nat)
    (hbind : bindRc = 0) (hm : ∀ i, mRc i = 0) (hu : ∀ t, uRc t = 0)
    (t : String) (e : EnterRes)
    (htdef : t = qemuTarget rootfs qemu)
    (hedef : e = enter (mkSession rootfs qemu mkw none) w bindRc mRc uRc) :
    (∀ c, fsGet w.fs t = some c →
      e.w.fs = w.fs ∧
      Op.mountOp { source := qemu, target := t, options := ["bind", "ro"] } ∈ e.ops ∧
      (∀ s', e.res = Except.ok s' →
        (exitRun s' e.w uRc).w.fs = w.fs ∧
        (exitRun s' e.w uRc).w.mounts = w.mounts ∧
        Op.umountOp t ∈ (exitRun s' e.w uRc).ops ∧
        fsGet (exitRun s' e.w uRc).w.fs t = some c)) ∧
    (∀ qc, fsGet w.fs t = none → fsGet w.fs qemu = some qc →
      Op.copyOp qemu t ∈ e.ops ∧
      (∀ s', e.res = Except.ok s' →
        Op.removeOp t ∈ (exitRun s' e.w uRc).ops ∧
        fsGet (exitRun s' e.w uRc).w.fs t = none ∧
        (exitRun s' e.w uRc).w.fs = w.fs ∧
        (exitRun s' e.w uRc).w.mounts = w.mounts)) := by
  subst htdef
  subst hedef
  constructor
  · intro c hc
    have ht : (fsGet w.fs (qemuTarget rootfs qemu)).isSome = true := by rw [hc]; rfl
    have he := enter_ok_bind rootfs qemu mkw none w bindRc mRc uRc hbind hm ht
    rw [he]
    refine ⟨rfl, List.mem_cons_self _ _, ?_⟩
    intro s' hres
    simp only [Except.ok.injEq] at hres
    subst hres
    refine ⟨?_, ?_, ?_, ?_⟩
    · simp only [exitRun, removeScripts, umountAll_fs]
    · simp only [exitRun, removeScripts]
      apply umountAll_restore uRc hu _ w.mounts
      simp
    · simp only [exitRun, removeScripts, umountAll_ops, List.append_nil]
      rw [List.mem_map]
      refine ⟨qemuTarget rootfs qemu, ?_, rfl⟩
      simp
    · simp only [exitRun, removeScripts, umountAll_fs]
      exact hc
  · intro qc htn hqc
    have he := enter_ok_copy rootfs qemu qc mkw none w bindRc mRc uRc hm htn hqc
    rw [he]
    refine ⟨List.mem_cons_self _ _, ?_⟩
    intro s' hres
    simp only [Except.ok.injEq] at hres
    subst hres
    have hpresent : (fsGet (fsSet w.fs (qemuTarget rootfs qemu) qc)
        (qemuTarget rootfs qemu)).isSome = true := by
      rw [fsGet_fsSet_same]
      rfl
    have hfs1 : fsDel (fsSet w.fs (qemuTarget rootfs qemu) qc) (qemuTarget rootfs qemu)
        = w.fs := by
      rw [fsDel_fsSet]
      exact fsDel_of_fsGet_none w.fs _ htn
    refine ⟨?_, ?_, ?_, ?_⟩
    · simp only [exitRun, hpresent, eq_self_iff_true, if_true]
      exact List.mem_cons_self _ _
    · simp only [exitRun, hpresent, eq_self_iff_true, if_true, removeScripts, umountAll_fs,
        hfs1]
      exact htn
    · simp only [exitRun, hpresent, eq_self_iff_true, if_true, removeScripts, umountAll_fs,
        hfs1]
    · simp only [exitRun, hpresent, eq_self_iff_true, if_true, removeScripts,
        removeScripts_mounts]
      apply umountAll_restore uRc hu _ w.mounts
      rfl

/-- C5 witness: instantiates the translator-preservation theorem on a rootfs
that already carries a translator file with contents `orig`: after
enter-then-close the file still holds `orig`, the filesystem and mount table
are back to the original, and the bind target was unmounted. -/
theorem qemu_translator_preserved_witness :
    let mkw : List MountKwargs :=
      [{ source := "sysfs", target := "/r/sys", type_ := some "sysfs", options := ["ro"] }]
    let w : W := { fs := [("/r/usr/bin/qemu-aarch64-static", "orig")], mounts := [] }
    let e := enter (mkSession "/r" "/q/qemu-aarch64-static" mkw none) w 0
      (fun _ => 0) (fun _ => 0)
    let s' : Session :=
      { rootfs := "/r", qemu := "/q/qemu-aarch64-static", mount_kwargs := mkw,
        userspec := none, tmp := "/r/tmp", qemu_copied := none,
        mounted := ["/r/usr/bin/qemu-aarch64-static", "/r/sys"], scripts := [] }
    e.w.fs = w.fs ∧
    (exitRun s' e.w (fun _ => 0)).w.fs = w.fs ∧
    (exitRun s' e.w (fun _ => 0)).w.mounts = w.mounts ∧
    Op.umountOp "/r/usr/bin/qemu-aarch64-static" ∈ (exitRun s' e.w (fun _ => 0)).ops ∧
    fsGet (exitRun s' e.w (fun _ => 0)).w.fs "/r/usr/bin/qemu-aarch64-static" =
      some "orig" := by
  intro mkw w e s'
  have h := qemu_translator_preserved "/r" "/q/qemu-aarch64-static" mkw w 0
    (fun _ => 0) (fun _ => 0) rfl (fun _ => rfl) (fun _ => rfl)
    (qemuTarget "/r" "/q/qemu-aarch64-static") e rfl rfl
  have hb := h.1 "orig" (by decide)
  have hin := hb.2.2 s' (by rfl)
  exact ⟨hb.1, hin.1, hin.2.1, hin.2.2.1, hin.2.2.2⟩

end Tegrity
